import Mathlib

/-!
Verification of the ghost-supply risk-aware routing engine.

This file gives a shallow embedding, in Lean 4, of the decision core of the
ghost-supply repository (src/ghost_supply/decision): the CVaR tail-risk
computation, the kill-zone penalty, the routing operations of CVaRRouter and
their fallbacks, the scenario sampler, the Stackelberg zero-sum selection and
the Pareto dominance filter.  Python floats are embedded as rationals except
where the source computes a transcendental function (math.exp), where reals
are used.  Mutation of the shared networkx graph is embedded as explicit
state passing: operations that write edge attributes return the new graph.
-/

namespace GhostSupply

/-! ## CVaR (CVaRRouter._calculate_cvar)

Risk values are embedded as rationals.  Python's sorted builtin is embedded as
insertion sort: on a linear order the ascending sort of a list is unique, so
any permutation-preserving ascending sort agrees with it elementwise. -/

/-- Arithmetic mean of a list of rationals (np.mean of a list).  On the empty
list the rational division by zero yields 0. -/
def listMean (l : List ℚ) : ℚ := l.sum / l.length

/-- sorted_risks = sorted(risks): ascending sort. -/
def sortRisks (risks : List ℚ) : List ℚ := risks.insertionSort (· ≤ ·)

/-- var_index = int(alpha * len(sorted_risks)).  Python's int truncates toward
zero; for the non-negative products that occur here this is the floor.  The
floor-then-toNat below also truncates negative values to 0, which never
matters for alpha in (0,1). -/
def cvarVarIndex (risks : List ℚ) (alpha : ℚ) : ℕ :=
  (Int.floor (alpha * ((sortRisks risks).length : ℚ))).toNat

/-- var = sorted_risks[var_index] if var_index < len(sorted_risks) else
sorted_risks[-1].  (On an empty input Python would raise IndexError on the
last-element access; the embedding returns the default 0 there, a case outside
every claim.) -/
def cvarVar (risks : List ℚ) (alpha : ℚ) : ℚ :=
  if h : cvarVarIndex risks alpha < (sortRisks risks).length then
    (sortRisks risks).get ⟨cvarVarIndex risks alpha, h⟩
  else (sortRisks risks).getLastD 0

/-- tail_risks = [r for r in sorted_risks if r >= var]. -/
def cvarTail (risks : List ℚ) (alpha : ℚ) : List ℚ :=
  (sortRisks risks).filter (fun r => cvarVar risks alpha ≤ r)

/-- CVaRRouter._calculate_cvar: cvar = np.mean(tail_risks) if tail_risks else
var. -/
def calculateCVaR (risks : List ℚ) (alpha : ℚ) : ℚ :=
  if cvarTail risks alpha ≠ [] then listMean (cvarTail risks alpha)
  else cvarVar risks alpha

/-! ## Kill-zone penalty (GraphBuilder._compute_killzone_penalty) -/

/-- A kill zone record: center coordinates and radius in km. -/
structure KillZone where
  centerLat : ℝ
  centerLon : ℝ
  radiusKm : ℝ

/-- The per-zone piecewise penalty of the distance d (km) from the edge
midpoint to the kill-zone center of radius r (km), as computed inside the
loop of _compute_killzone_penalty. -/
noncomputable def killzonePenaltyOfDist (d r : ℝ) : ℝ :=
  if d < r then 1000
  else if d < r * 1.5 then 50 * Real.exp (3 * (1 - (d - r) / (r * 0.5)))
  else if d < r * 2 then 10
  else 1

/-- GraphBuilder._compute_killzone_penalty.  The per-zone distance is
computed in the source by the external geopy geodesic call
(ghost_supply.utils.geo.haversine_distance); it enters the embedding through
the distance-function parameter dist (lat lon centerLat centerLon to km). -/
noncomputable def computeKillzonePenalty (dist : ℝ → ℝ → ℝ → ℝ → ℝ)
    (lat lon : ℝ) (killZones : List KillZone) : ℝ :=
  if killZones.isEmpty then 1
  else killZones.foldl (fun minPenalty kz =>
    max minPenalty
      (killzonePenaltyOfDist (dist lat lon kz.centerLat kz.centerLon)
        kz.radiusKm)) 1

/-! ## Scenario sampling (CVaRRouter._generate_scenarios)

The source draws from numpy's global pseudo-random generator
(np.random.uniform / np.random.choice); no seed is taken by the router or by
any of its callers.  The generator is library code outside the repository; it
is embedded, following the spec, as a deterministic state machine on a Nat
state, which preserves the properties relevant to the claims: each draw is a
pure function of the hidden global state, advances that state, and yields a
value in the documented range. -/

/-- One scenario dict of risk multipliers (spec section 3: visibility_mult in
[0.7,1.3], detection_mult in [0.8,1.2], patrol_presence in
the set 0.8, 1.0, 1.2, 1.5). -/
structure Scenario where
  visibility_mult : ℚ
  detection_mult : ℚ
  patrol_presence : ℚ
deriving DecidableEq, Inhabited, Repr

/-- Modelled from the spec: the state transition of the global generator that
np.random draws advance (the generator itself is external library code); a
linear congruential stand-in. -/
def rngNext (s : Nat) : Nat := (1103515245 * s + 12345) % 2147483648

/-- Modelled from the spec: one np.random.uniform(lo, hi) draw from hidden
state s, returning the value and the advanced state. -/
def rngUniform (lo hi : ℚ) (s : Nat) : ℚ × Nat :=
  let s2 := rngNext s
  (lo + (hi - lo) * ((s2 % 1001 : Nat) : ℚ) / 1000, s2)

/-- Modelled from the spec: one np.random.choice(options) draw from hidden
state s. -/
def rngChoice (options : List ℚ) (s : Nat) : ℚ × Nat :=
  let s2 := rngNext s
  (options.getD (s2 % options.length) 0, s2)

/-- One iteration of the loop of CVaRRouter._generate_scenarios. -/
def generateScenario (s : Nat) : Scenario × Nat :=
  let v := rngUniform (7/10) (13/10) s
  let dm := rngUniform (4/5) (6/5) v.2
  let pp := rngChoice [4/5, 1, 6/5, 3/2] dm.2
  (⟨v.1, dm.1, pp.1⟩, pp.2)

/-- CVaRRouter._generate_scenarios: num_scenarios draws from the global
generator; the hidden state is threaded explicitly. -/
def generateScenarios : Nat → Nat → List Scenario × Nat
  | 0, s => ([], s)
  | n + 1, s =>
    let sc := generateScenario s
    let rest := generateScenarios n sc.2
    (sc.1 :: rest.1, rest.2)

/-! ## The attributed routing graph

networkx node and edge attribute dictionaries become records of optional
fields; every .get(key, default) in the source becomes Option.getD. -/

/-- Node attributes: x = longitude, y = latitude. -/
structure NodeData where
  x : ℚ
  y : ℚ
deriving DecidableEq, Inhabited, Repr

/-- Edge attribute bag.  geometry stands for the shapely LineString already
converted to its (lat, lon) vertex list (the zip(lats, lons) of the source);
a parse failure of a malformed geometry object is not modelled. -/
structure EdgeData where
  distance_km : Option ℚ
  travel_time_hours : Option ℚ
  detection_base : Option ℚ
  visibility : Option ℚ
  killzone_penalty : Option ℚ
  risk_weight : Option ℚ
  temp_penalty : Option ℚ
  geometry : Option (List (ℚ × ℚ))
deriving DecidableEq, Inhabited, Repr

/-- A directed graph with attribute bags, as used by CVaRRouter. -/
structure Graph where
  nodes : List (Nat × NodeData)
  edges : List ((Nat × Nat) × EdgeData)
deriving DecidableEq, Inhabited

/-- Attribute lookup of a directed edge. -/
def Graph.findEdge (g : Graph) (u v : Nat) : Option EdgeData :=
  (g.edges.find? (fun e => e.1.1 == u && e.1.2 == v)).map (fun e => e.2)

/-- graph.has_edge(u, v). -/
def Graph.hasEdge (g : Graph) (u v : Nat) : Bool := (g.findEdge u v).isSome

/-- graph.edges[u, v]; total with a default bag, only used behind has_edge
checks in the embedded operations. -/
def Graph.edgeData (g : Graph) (u v : Nat) : EdgeData :=
  (g.findEdge u v).getD default

/-- graph.nodes[n]; total with a default record. -/
def Graph.nodeData (g : Graph) (n : Nat) : NodeData :=
  ((g.nodes.find? (fun p => p.1 == n)).map (fun p => p.2)).getD default

/-- Successor node list of u, in edge-list order. -/
def succList (g : Graph) (u : Nat) : List Nat :=
  (g.edges.filter (fun e => e.1.1 == u)).map (fun e => e.1.2)

/-- A directed walk from o to d: non-empty node list starting at o, ending at
d, with every consecutive pair an edge of the graph. -/
def IsWalkFromTo (g : Graph) (o d : Nat) (p : List Nat) : Prop :=
  p.head? = some o ∧ p.getLast? = some d ∧
  p.Chain' (fun u v => g.hasEdge u v = true)

/-- There is a directed path from o to d in the graph. -/
def ExistsPath (g : Graph) (o d : Nat) : Prop := ∃ p, IsWalkFromTo g o d p

/-! ## Shortest paths (nx.shortest_path)

nx.shortest_path with a weight is Dijkstra on non-negative weights: it
returns a minimum-weight simple path and raises NetworkXNoPath when the
target is unreachable.  It is embedded as exhaustive simple-path enumeration
followed by weight minimisation; an edge missing the weight attribute counts
as weight 1, as in networkx. -/

/-- All simple paths from current to d whose intermediate nodes avoid
visited, with recursion depth bounded by fuel. -/
def simplePathsAux (g : Graph) (d : Nat) (fuel : Nat) (current : Nat)
    (visited : List Nat) : List (List Nat) :=
  if current = d then [[current]]
  else match fuel with
  | 0 => []
  | fuel2 + 1 =>
    (((succList g current).filter (fun v => decide (v ∉ visited))).map
      (fun v => (simplePathsAux g d fuel2 v (v :: visited)).map
        (fun p => current :: p))).flatten

/-- Total weight of a node path under the per-edge weight w. -/
def pathWeight (g : Graph) (w : EdgeData → ℚ) (p : List Nat) : ℚ :=
  ((p.zip p.tail).map (fun e => w (g.edgeData e.1 e.2))).sum

/-- First minimum-weight element of a list of candidate paths. -/
def minWeightPath (g : Graph) (w : EdgeData → ℚ) :
    List (List Nat) → Option (List Nat)
  | [] => none
  | p :: ps => some (ps.foldl
      (fun best q => if pathWeight g w q < pathWeight g w best then q else best) p)

/-- nx.shortest_path(graph, o, d, weight=w): some minimum-weight path when d
is reachable from o, none (NetworkXNoPath) otherwise. -/
def nxShortestPath (g : Graph) (w : EdgeData → ℚ) (o d : Nat) :
    Option (List Nat) :=
  minWeightPath g w (simplePathsAux g d (g.nodes.length + 1) o [o])

/-- weight="distance_km" (missing attribute counts as 1 in networkx). -/
def weightDistance (e : EdgeData) : ℚ := e.distance_km.getD 1

/-- weight="travel_time_hours". -/
def weightTravelTime (e : EdgeData) : ℚ := e.travel_time_hours.getD 1

/-- weight="risk_weight". -/
def weightRiskWeight (e : EdgeData) : ℚ := e.risk_weight.getD 1

/-- The diversification weight lambda of StackelbergRouter._generate_k_routes:
travel_time_hours (default 1.0) plus temp_penalty (default 0.0). -/
def weightDiverse (e : EdgeData) : ℚ :=
  e.travel_time_hours.getD 1 + e.temp_penalty.getD 0

/-! ## Route scoring (CVaRRouter._get_edge_risk, _build_route_result) -/

/-- A waypoint of the produced route. -/
structure Waypoint where
  latitude : ℚ
  longitude : ℚ
  name : String
  eta_hours : ℚ
  instructions : String
  risk_level : ℚ
deriving DecidableEq, Inhabited, Repr

/-- RouteResult dataclass.  survival_probability is real-valued because the
source computes it with math.exp. -/
structure RouteResult where
  path : List (ℚ × ℚ)
  node_path : List Nat
  time_minutes : ℚ
  distance_km : ℚ
  mean_risk : ℚ
  cvar_95 : ℚ
  cvar_99 : ℚ
  waypoints : List Waypoint
  method : String
  survival_probability : ℝ

/-- CVaRRouter._get_edge_risk: scenario-dependent risk of one edge, capped
at 10. -/
def getEdgeRisk (g : Graph) (u v : Nat) (scenario : Scenario)
    (cargoValue : ℚ) : ℚ :=
  let data := g.edgeData u v
  let base_detection := data.detection_base.getD (3/10)
  let vis := data.visibility.getD (1/2)
  let kp := data.killzone_penalty.getD 1
  let scenario_risk := base_detection * scenario.detection_mult *
    (1 + vis * scenario.visibility_mult * (1/2)) * scenario.patrol_presence * kp
  min (scenario_risk * (cargoValue / 10)) 10

/-- Consecutive node pairs of a path. -/
def adjPairs (p : List Nat) : List (Nat × Nat) := p.zip p.tail

/-- The travel-time accumulation of the first loop of _build_route_result:
edges absent from the graph are skipped (continue), a missing attribute
counts as 0 there. -/
def totalTravelTime (g : Graph) (nodePath : List Nat) : ℚ :=
  (adjPairs nodePath).foldl (fun acc e =>
    if g.hasEdge e.1 e.2 then
      acc + ((g.edgeData e.1 e.2).travel_time_hours).getD 0
    else acc) 0

/-- The distance accumulation of the same loop. -/
def totalDistanceKm (g : Graph) (nodePath : List Nat) : ℚ :=
  (adjPairs nodePath).foldl (fun acc e =>
    if g.hasEdge e.1 e.2 then
      acc + ((g.edgeData e.1 e.2).distance_km).getD 0
    else acc) 0

/-- Coordinates (lat, lon) of a node. -/
def nodeCoord (g : Graph) (n : Nat) : ℚ × ℚ :=
  ((g.nodeData n).y, (g.nodeData n).x)

/-- The coordinate contribution of the i-th edge (u, v) of the path: prefer
the stored geometry, dropping its first point on continuations; otherwise
the endpoints (the start point only on the first edge). -/
def segmentCoords (g : Graph) (i : Nat) (u v : Nat) : List (ℚ × ℚ) :=
  match (g.edgeData u v).geometry with
  | some seg =>
    if seg.isEmpty then
      (if i = 0 then [nodeCoord g u] else []) ++ [nodeCoord g v]
    else if i = 0 then seg
    else seg.tail
  | none => (if i = 0 then [nodeCoord g u] else []) ++ [nodeCoord g v]

/-- The coordinate path assembled by _build_route_result. -/
def pathCoords (g : Graph) (nodePath : List Nat) : List (ℚ × ℚ) :=
  ((adjPairs nodePath).enum).foldl (fun acc ie =>
    if g.hasEdge ie.2.1 ie.2.2 then acc ++ segmentCoords g ie.1 ie.2.1 ie.2.2
    else acc) []

/-- The scenario risk of a whole path: sum of edge risks over edges present
in the graph. -/
def pathScenarioRisk (g : Graph) (nodePath : List Nat) (scenario : Scenario)
    (cargoValue : ℚ) : ℚ :=
  (adjPairs nodePath).foldl (fun acc e =>
    if g.hasEdge e.1 e.2 then acc + getEdgeRisk g e.1 e.2 scenario cargoValue
    else acc) 0

/-- scenario_risks list of _build_route_result. -/
def scenarioRisks (g : Graph) (nodePath : List Nat)
    (scenarios : List Scenario) (cargoValue : ℚ) : List ℚ :=
  scenarios.map (fun s => pathScenarioRisk g nodePath s cargoValue)

/-- CVaRRouter._calculate_survival_probability: exp(-lambda * risk). -/
noncomputable def calculateSurvivalProbability (riskScore lambdaCal : ℝ) : ℝ :=
  Real.exp (-(lambdaCal * riskScore))

/-- The waypoint loop of _build_route_result.  It runs after the travel-time
accumulation loop has already finished, so the eta_hours stored in every
waypoint is the final accumulated total passed in here, not the cumulative
time up to the waypoint. -/
def buildWaypoints (g : Graph) (nodePath : List Nat) (totalTimeHours : ℚ) :
    List Waypoint :=
  let n := nodePath.length
  let interval := max 1 (n / 10)
  nodePath.enum.foldl (fun acc inode =>
    if inode.1 = 0 ∨ inode.1 = n - 1 ∨ inode.1 % interval = 0 then
      acc ++ [{ latitude := (g.nodeData inode.2).y
                longitude := (g.nodeData inode.2).x
                name := if inode.1 = 0 then "Origin"
                  else if inode.1 = n - 1 then "Destination"
                  else "Waypoint " ++ toString acc.length
                eta_hours := totalTimeHours
                instructions := ""
                risk_level := 0 }]
    else acc) []

/-- CVaRRouter._build_route_result. -/
noncomputable def buildRouteResult (g : Graph) (nodePath : List Nat)
    (scenarios : List Scenario) (cargoValue : ℚ) (method : String) :
    RouteResult :=
  let total_time := totalTravelTime g nodePath
  let risks := scenarioRisks g nodePath scenarios cargoValue
  let cvar95 := calculateCVaR risks (95/100)
  { path := pathCoords g nodePath
    node_path := nodePath
    time_minutes := total_time * 60
    distance_km := totalDistanceKm g nodePath
    mean_risk := listMean risks
    cvar_95 := cvar95
    cvar_99 := calculateCVaR risks (99/100)
    waypoints := buildWaypoints g nodePath total_time
    method := method
    survival_probability := calculateSurvivalProbability (cvar95 : ℝ) (1/10) }

/-- CVaRRouter._empty_result. -/
noncomputable def emptyResult (method : String) : RouteResult :=
  { path := []
    node_path := []
    time_minutes := 0
    distance_km := 0
    mean_risk := 0
    cvar_95 := 0
    cvar_99 := 0
    waypoints := []
    method := method
    survival_probability := 0 }

/-! ## Routing operations (CVaRRouter)

In the source each operation draws a fresh scenario set from the global
generator; the drawn scenario list enters the embedding as the scenarios
parameter.  Operations that write edge attributes return the updated graph. -/

/-- CVaRRouter.shortest_time.  The source calls _build_route_result with the
default cargo value 7.0. -/
noncomputable def shortestTime (g : Graph) (o d : Nat)
    (scenarios : List Scenario) : RouteResult :=
  match nxShortestPath g weightTravelTime o d with
  | none => emptyResult "shortest_time"
  | some p => buildRouteResult g p scenarios 7 "shortest_time"

/-- CVaRRouter.shortest_distance. -/
noncomputable def shortestDistance (g : Graph) (o d : Nat)
    (scenarios : List Scenario) : RouteResult :=
  match nxShortestPath g weightDistance o d with
  | none => emptyResult "shortest_distance"
  | some p => buildRouteResult g p scenarios 7 "shortest_distance"

/-- The edge-weight mutation loop at the start of CVaRRouter.mean_risk:
data["risk_weight"] = data.get("detection_base", 0.3) * cargo_value / 10.0 *
data.get("killzone_penalty", 1.0) on every edge. -/
def setRiskWeights (g : Graph) (cargoValue : ℚ) : Graph :=
  { g with edges := g.edges.map (fun e =>
      (e.1, { e.2 with
               risk_weight := some ((e.2.detection_base.getD (3/10)) *
                 cargoValue / 10 * (e.2.killzone_penalty.getD 1)) })) }

/-- CVaRRouter.mean_risk: mutates risk_weight on every edge, then runs the
shortest path on the mutated graph; the mutated graph is returned as the
post-state. -/
noncomputable def meanRisk (g : Graph) (o d : Nat) (cargoValue : ℚ)
    (scenarios : List Scenario) : RouteResult × Graph :=
  let g2 := setRiskWeights g cargoValue
  match nxShortestPath g2 weightRiskWeight o d with
  | none => (emptyResult "mean_risk", g2)
  | some p => (buildRouteResult g2 p scenarios cargoValue "mean_risk", g2)

/-- The dict comprehension edge_dict = "u maps to v" of _edges_to_path: on
duplicate sources the later pair wins. -/
def edgeDictFind (edges : List (Nat × Nat)) (u : Nat) : Option Nat :=
  ((edges.filter (fun e => e.1 == u)).getLast?).map (fun e => e.2)

/-- The bounded walk loop of _edges_to_path: at most fuel steps, stopping at
the destination, failing (returning none, the source returns []) when the
current node has no outgoing selected edge. -/
def edgesWalk (find : Nat → Option Nat) (destination : Nat) :
    Nat → Nat → List Nat → Option (List Nat)
  | 0, _, acc => some acc
  | fuel + 1, current, acc =>
    if current = destination then some acc
    else match find current with
      | none => none
      | some nxt => edgesWalk find destination fuel nxt (acc ++ [nxt])

/-- CVaRRouter._edges_to_path. -/
def edgesToPath (edges : List (Nat × Nat)) (origin destination : Nat) :
    List Nat :=
  if edges.isEmpty then []
  else match edgesWalk (edgeDictFind edges) destination (edges.length + 1)
      origin [origin] with
    | none => []
    | some p => if p.getLast? = some destination then p else []

/-- CVaRRouter.optimize after the MILP solve.  The external Pyomo solver call
enters the embedding as solverOutcome: none when the solve raised (the first
fallback), some selected when it returned the edges with x > 0.5.  The
source's hasattr(model, "x") re-check can never fail after a completed solve
and is not modelled. -/
noncomputable def optimize (g : Graph) (origin destination : Nat)
    (cargoValue : ℚ) (scenarios : List Scenario)
    (solverOutcome : Option (List (Nat × Nat))) : RouteResult :=
  match solverOutcome with
  | none => shortestTime g origin destination scenarios
  | some selected =>
    let nodePath := edgesToPath selected origin destination
    if nodePath.isEmpty then shortestTime g origin destination scenarios
    else buildRouteResult g nodePath scenarios cargoValue "cvar"

/-! ## Stackelberg diversification and zero-sum solve (StackelbergRouter) -/

/-- The penalty-application loop of _generate_k_routes: temp_penalty = 100.0
on every already-used edge present in the graph. -/
def applyTempPenalties (g : Graph) (penaltyEdges : List (Nat × Nat)) : Graph :=
  { g with edges := g.edges.map (fun e =>
      if e.1 ∈ penaltyEdges then (e.1, { e.2 with temp_penalty := some 100 })
      else e) }

/-- The penalty-removal loop of _generate_k_routes: del temp_penalty when
present. -/
def removeTempPenalties (g : Graph) (penaltyEdges : List (Nat × Nat)) :
    Graph :=
  { g with edges := g.edges.map (fun e =>
      if e.1 ∈ penaltyEdges ∧ e.2.temp_penalty.isSome = true then
        (e.1, { e.2 with temp_penalty := none })
      else e) }

/-- One iteration of the diversification while-loop of _generate_k_routes:
apply the penalties, search a penalized-time shortest path, and remove the
penalties only when the search succeeded; when nx.shortest_path raises (no
path), the except handler breaks out before the removal loop runs, so the
penalties stay on the graph. -/
def diverseRouteStep (g : Graph) (penaltyEdges : List (Nat × Nat))
    (o d : Nat) : Option (List Nat) × Graph :=
  let g1 := applyTempPenalties g penaltyEdges
  match nxShortestPath g1 weightDiverse o d with
  | none => (none, g1)
  | some p => (some p, removeTempPenalties g1 penaltyEdges)

/-- np.ones(K) / K. -/
def uniformStrategy (k : Nat) : List ℚ := List.replicate k (1 / (k : ℚ))

/-- StackelbergRouter._solve_zero_sum_game.  The support enumeration is
performed by the external nashpy library on the game (payoff, -payoff); the
list of (row strategy, column strategy) pairs it yields enters the embedding
as the equilibria parameter, in the library's order. -/
def solveZeroSumGame (payoff : List (List ℚ))
    (equilibria : List (List ℚ × List ℚ)) : List ℚ :=
  let K := payoff.length
  if K = 1 then [1]
  else match equilibria with
    | [] => uniformStrategy K
    | e :: _ => e.1

/-- Dot product of rational vectors (zip truncates to the shorter one). -/
def dotQ (xs ys : List ℚ) : ℚ := ((xs.zip ys).map (fun p => p.1 * p.2)).sum

/-- Matrix-vector product, rows as lists. -/
def matVec (A : List (List ℚ)) (y : List ℚ) : List ℚ :=
  A.map (fun row => dotQ row y)

/-- Bilinear payoff x^T A y of a strategy pair. -/
def payoffValue (x : List ℚ) (A : List (List ℚ)) (y : List ℚ) : ℚ :=
  dotQ x (matVec A y)

/-- A probability vector: non-negative entries summing to one. -/
def IsProbVec (x : List ℚ) : Prop := (∀ v ∈ x, 0 ≤ v) ∧ x.sum = 1

/-- A Nash equilibrium of the zero-sum game (A, -A): the row player cannot
improve the payoff x^T A y by deviating, the column player cannot lower it. -/
def IsZeroSumEquilibrium (A : List (List ℚ)) (sg tg : List ℚ) : Prop :=
  IsProbVec sg ∧ IsProbVec tg ∧
  (∀ s2, IsProbVec s2 → s2.length = A.length →
    payoffValue s2 A tg ≤ payoffValue sg A tg) ∧
  (∀ t2, IsProbVec t2 → t2.length = (A.headD []).length →
    payoffValue sg A tg ≤ payoffValue sg A t2)

/-! ## Pareto dominance filter (ParetoFrontGenerator) -/

/-- ParetoFrontGenerator._dominates in the (time_minutes, cvar_95) plane. -/
def dominates (a b : RouteResult) : Bool :=
  (decide (a.time_minutes ≤ b.time_minutes) &&
    decide (a.cvar_95 ≤ b.cvar_95)) &&
  (decide (a.time_minutes < b.time_minutes) ||
    decide (a.cvar_95 < b.cvar_95))

/-- The inner loop of _filter_dominated: is the element r, sitting at index
i, dominated by an element at a different index. -/
def isDominatedWithin (results : List RouteResult) (i : Nat)
    (r : RouteResult) : Bool :=
  results.enum.any (fun q => decide (q.1 ≠ i) && dominates q.2 r)

/-- ParetoFrontGenerator._filter_dominated. -/
def filterDominated (results : List RouteResult) : List RouteResult :=
  if results.length ≤ 1 then results
  else (results.enum.filter
      (fun p => !(isDominatedWithin results p.1 p.2))).map (fun p => p.2)

/-! ## Sample inputs used by witnesses and counterexamples -/

/-- A two-node graph with no edges: node 1 is unreachable from node 0. -/
def sampleGraphNoPath : Graph :=
  { nodes := [(0, ⟨0, 0⟩), (1, ⟨1, 1⟩)], edges := [] }

/-- A plain edge attribute bag. -/
def sampleEdgeData : EdgeData :=
  { distance_km := some 5
    travel_time_hours := some 1
    detection_base := none
    visibility := none
    killzone_penalty := none
    risk_weight := none
    temp_penalty := none
    geometry := none }

/-- A two-node graph with the single edge 0 to 1. -/
def sampleGraphOneEdge : Graph :=
  { nodes := [(0, ⟨0, 0⟩), (1, ⟨1, 1⟩)]
    edges := [((0, 1), sampleEdgeData)] }

/-- The line graph 0 to 1 to 2 with one-hour edges. -/
def sampleGraphLine3 : Graph :=
  { nodes := [(0, ⟨0, 0⟩), (1, ⟨1, 0⟩), (2, ⟨2, 0⟩)]
    edges := [((0, 1), sampleEdgeData), ((1, 2), sampleEdgeData)] }

/-- A neutral scenario. -/
def sampleScenario : Scenario := ⟨1, 1, 1⟩

/-- A route result fast in time, weak in tail risk. -/
noncomputable def sampleRouteA : RouteResult :=
  { path := [], node_path := [0], time_minutes := 1, distance_km := 1
    mean_risk := 1, cvar_95 := 2, cvar_99 := 2, waypoints := []
    method := "a", survival_probability := 0 }

/-- A route result slow in time, strong in tail risk: incomparable with
sampleRouteA. -/
noncomputable def sampleRouteB : RouteResult :=
  { path := [], node_path := [1], time_minutes := 2, distance_km := 1
    mean_risk := 1, cvar_95 := 1, cvar_99 := 1, waypoints := []
    method := "b", survival_probability := 0 }

/-! ### Helper lemmas about the CVaR embedding -/

theorem length_sortRisks (risks : List ℚ) :
    (sortRisks risks).length = risks.length :=
  (List.perm_insertionSort _ _).length_eq

theorem sorted_sortRisks (risks : List ℚ) :
    List.Sorted (· ≤ ·) (sortRisks risks) :=
  List.sorted_insertionSort _ _

theorem filter_not_sum (l : List ℚ) (p : ℚ → Bool) :
    (l.filter p).sum + (l.filter (fun x => !(p x))).sum = l.sum := by
  induction l with
  | nil => simp
  | cons a t ih =>
    by_cases h : p a = true <;>
      simp [List.filter_cons, h, ← ih] <;> ring

theorem filter_not_length {α : Type} (l : List α) (p : α → Bool) :
    (l.filter p).length + (l.filter (fun x => !(p x))).length = l.length := by
  induction l with
  | nil => simp
  | cons a t ih =>
    by_cases h : p a = true <;>
      simp [List.filter_cons, h, ← ih] <;> omega

/-- Discarding the elements below a threshold cannot lower the mean: the mean
of the kept tail is at least the mean of the whole list. -/
theorem mean_le_mean_filter (l : List ℚ) (v : ℚ)
    (hne : l.filter (fun r => v ≤ r) ≠ []) :
    listMean l ≤ listMean (l.filter (fun r => v ≤ r)) := by
  set p : ℚ → Bool := fun r => v ≤ r with hp
  set A := l.filter p with hA
  set B := l.filter (fun x => !(p x)) with hB
  have hsum : A.sum + B.sum = l.sum := filter_not_sum l p
  have hlen : A.length + B.length = l.length := filter_not_length l p
  have hA0 : 0 < A.length := List.length_pos.mpr hne
  have hAv : (A.length : ℚ) * v ≤ A.sum := by
    have h := List.card_nsmul_le_sum A v (fun x hx => by
      have := (List.mem_filter.mp hx).2
      exact of_decide_eq_true this)
    simpa [nsmul_eq_mul] using h
  have hBv : B.sum ≤ (B.length : ℚ) * v := by
    have h := List.sum_le_card_nsmul B v (fun x hx => by
      have hbx := (List.mem_filter.mp hx).2
      have : ¬ (v ≤ x) := by
        simp only [hp, Bool.not_eq_true', decide_eq_false_iff_not] at hbx
        exact hbx
      exact (not_le.mp this).le)
    simpa [nsmul_eq_mul] using h
  have hlA : (0:ℚ) < A.length := by exact_mod_cast hA0
  have hlB : (0:ℚ) ≤ B.length := by positivity
  have hcast : (l.length : ℚ) = (A.length : ℚ) + (B.length : ℚ) := by
    exact_mod_cast hlen.symm
  rw [listMean, listMean, ← hsum, hcast, div_le_div_iff (by positivity) hlA]
  nlinarith [mul_le_mul_of_nonneg_right hBv hlA.le,
    mul_le_mul_of_nonneg_right hAv hlB]

theorem cvarVarIndex_lt (risks : List ℚ) (alpha : ℚ)
    (hne : risks ≠ []) (h1 : alpha < 1) :
    cvarVarIndex risks alpha < (sortRisks risks).length := by
  have hn : 0 < risks.length := List.length_pos.mpr hne
  have hlen := length_sortRisks risks
  have hnq : (0:ℚ) < ((sortRisks risks).length : ℚ) := by
    rw [hlen]; exact_mod_cast hn
  unfold cvarVarIndex
  rcases le_or_lt 0 (Int.floor (alpha * ((sortRisks risks).length : ℚ))) with h | h
  · rw [Int.toNat_lt h, Int.floor_lt]
    push_cast
    calc alpha * ((sortRisks risks).length : ℚ)
        < 1 * ((sortRisks risks).length : ℚ) :=
          mul_lt_mul_of_pos_right h1 hnq
      _ = ((sortRisks risks).length : ℚ) := one_mul _
  · rw [Int.toNat_of_nonpos h.le]
    rw [hlen]; exact hn

theorem cvarVar_mem (risks : List ℚ) (alpha : ℚ)
    (hne : risks ≠ []) (h1 : alpha < 1) :
    cvarVar risks alpha ∈ sortRisks risks := by
  have h := cvarVarIndex_lt risks alpha hne h1
  rw [cvarVar, dif_pos h]
  exact List.get_mem _ _ _

theorem cvarTail_ne_nil (risks : List ℚ) (alpha : ℚ)
    (hne : risks ≠ []) (h1 : alpha < 1) :
    cvarTail risks alpha ≠ [] := by
  have hv := cvarVar_mem risks alpha hne h1
  have hmem : cvarVar risks alpha ∈ cvarTail risks alpha :=
    List.mem_filter.mpr ⟨hv, by simp⟩
  exact List.ne_nil_of_mem hmem

theorem calculateCVaR_eq_mean_tail (risks : List ℚ) (alpha : ℚ)
    (hne : risks ≠ []) (h1 : alpha < 1) :
    calculateCVaR risks alpha = listMean (cvarTail risks alpha) := by
  rw [calculateCVaR, if_pos (cvarTail_ne_nil risks alpha hne h1)]

theorem cvarVar_mono (risks : List ℚ) {alpha alpha' : ℚ}
    (hne : risks ≠ []) (h0 : 0 ≤ alpha) (hle : alpha ≤ alpha') (h1 : alpha' < 1) :
    cvarVar risks alpha ≤ cvarVar risks alpha' := by
  have hi : cvarVarIndex risks alpha ≤ cvarVarIndex risks alpha' := by
    unfold cvarVarIndex
    exact Int.toNat_le_toNat (Int.floor_le_floor
      (mul_le_mul_of_nonneg_right hle (by positivity)))
  have hlt := cvarVarIndex_lt risks alpha hne (lt_of_le_of_lt hle h1)
  have hlt' := cvarVarIndex_lt risks alpha' hne h1
  rw [cvarVar, dif_pos hlt, cvarVar, dif_pos hlt']
  rcases eq_or_lt_of_le hi with heq | hl
  · simp only [heq]
    exact le_rfl
  · exact (sorted_sortRisks risks).rel_get_of_lt hl

theorem cvarTail_filter_eq (risks : List ℚ) {alpha alpha' : ℚ}
    (hne : risks ≠ []) (h0 : 0 ≤ alpha) (hle : alpha ≤ alpha') (h1 : alpha' < 1) :
    cvarTail risks alpha' =
      (cvarTail risks alpha).filter (fun r => cvarVar risks alpha' ≤ r) := by
  rw [cvarTail, cvarTail, List.filter_filter]
  refine (List.filter_congr ?_).symm
  intro x hx
  by_cases h : cvarVar risks alpha' ≤ x
  · have h2 : cvarVar risks alpha ≤ x :=
      le_trans (cvarVar_mono risks hne h0 hle h1) h
    simp [h, h2]
  · simp [h]

/-- C1: for every non-empty list of non-negative risks and confidence levels
alpha ≤ alpha' in (0,1), the CVaR computed by _calculate_cvar satisfies
CVaR_alpha ≥ mean ≥ 0 and is non-decreasing in alpha. -/
theorem cvar_ge_mean_nonneg_monotone (risks : List ℚ) (alpha alpha' : ℚ)
    (hne : risks ≠ []) (hnn : ∀ r ∈ risks, 0 ≤ r)
    (h0 : 0 < alpha) (h1 : alpha < 1) (hle : alpha ≤ alpha') (h1' : alpha' < 1) :
    0 ≤ listMean risks ∧ listMean risks ≤ calculateCVaR risks alpha ∧
    calculateCVaR risks alpha ≤ calculateCVaR risks alpha' := by
  have hperm : (sortRisks risks).Perm risks := List.perm_insertionSort _ _
  have hmean_eq : listMean (sortRisks risks) = listMean risks := by
    rw [listMean, listMean, hperm.sum_eq, length_sortRisks]
  refine ⟨?_, ?_, ?_⟩
  · exact div_nonneg (List.sum_nonneg hnn) (by positivity)
  · rw [calculateCVaR_eq_mean_tail risks alpha hne h1, ← hmean_eq, cvarTail]
    exact mean_le_mean_filter (sortRisks risks) (cvarVar risks alpha)
      (by rw [← cvarTail]; exact cvarTail_ne_nil risks alpha hne h1)
  · rw [calculateCVaR_eq_mean_tail risks alpha hne h1,
      calculateCVaR_eq_mean_tail risks alpha' hne h1',
      cvarTail_filter_eq risks hne h0.le hle h1']
    exact mean_le_mean_filter (cvarTail risks alpha) (cvarVar risks alpha')
      (by rw [← cvarTail_filter_eq risks hne h0.le hle h1']
          exact cvarTail_ne_nil risks alpha' hne h1')

/-- Witness for C1 at risks = [1, 2, 3], alpha = 1/2, alpha' = 3/4. -/
theorem cvar_ge_mean_nonneg_monotone_witness :
    0 ≤ listMean [(1:ℚ), 2, 3] ∧
    listMean [(1:ℚ), 2, 3] ≤ calculateCVaR [(1:ℚ), 2, 3] (1/2) ∧
    calculateCVaR [(1:ℚ), 2, 3] (1/2) ≤ calculateCVaR [(1:ℚ), 2, 3] (3/4) :=
  cvar_ge_mean_nonneg_monotone [(1:ℚ), 2, 3] (1/2) (3/4) (by decide)
    (by decide) (by norm_num) (by norm_num) (by norm_num) (by norm_num)

/-- C10: for a non-empty risk list and alpha in (0,1) the index int(alpha*len)
is strictly below the list length (the out-of-range guard taking the last
element is unreachable), the tail list is non-empty (the empty-tail fallback
returning var is unreachable), and _calculate_cvar reduces to the mean of the
tail. -/
theorem cvar_guard_branches_unreachable (risks : List ℚ) (alpha : ℚ)
    (hne : risks ≠ []) (h0 : 0 < alpha) (h1 : alpha < 1) :
    cvarVarIndex risks alpha < (sortRisks risks).length ∧
    cvarTail risks alpha ≠ [] ∧
    calculateCVaR risks alpha = listMean (cvarTail risks alpha) :=
  ⟨cvarVarIndex_lt risks alpha hne h1, cvarTail_ne_nil risks alpha hne h1,
   calculateCVaR_eq_mean_tail risks alpha hne h1⟩

/-- Witness for C10 at risks = [2, 5], alpha = 3/5. -/
theorem cvar_guard_branches_unreachable_witness :
    cvarVarIndex [(2:ℚ), 5] (3/5) < (sortRisks [(2:ℚ), 5]).length ∧
    cvarTail [(2:ℚ), 5] (3/5) ≠ [] ∧
    calculateCVaR [(2:ℚ), 5] (3/5) = listMean (cvarTail [(2:ℚ), 5] (3/5)) :=
  cvar_guard_branches_unreachable [(2:ℚ), 5] (3/5) (by decide)
    (by norm_num) (by norm_num)

/-! ### Kill-zone penalty lemmas -/

theorem foldl_max_init_le {α : Type} (f : α → ℝ) (l : List α) (c : ℝ) :
    c ≤ l.foldl (fun m x => max m (f x)) c := by
  induction l generalizing c with
  | nil => exact le_rfl
  | cons a t ih => exact le_trans (le_max_left _ _) (ih (max c (f a)))

theorem foldl_max_le {α : Type} (f : α → ℝ) (l : List α) (c : ℝ)
    (a : α) (ha : a ∈ l) : f a ≤ l.foldl (fun m x => max m (f x)) c := by
  induction l generalizing c with
  | nil => cases ha
  | cons b t ih =>
    rcases List.mem_cons.mp ha with rfl | hmem
    · exact le_trans (le_max_right c (f a)) (foldl_max_init_le f t _)
    · exact ih _ hmem

theorem foldl_max_attained {α : Type} (f : α → ℝ) (l : List α) (c : ℝ) :
    l.foldl (fun m x => max m (f x)) c = c ∨
    ∃ a ∈ l, l.foldl (fun m x => max m (f x)) c = f a := by
  induction l generalizing c with
  | nil => exact Or.inl rfl
  | cons b t ih =>
    rcases ih (max c (f b)) with h | ⟨a, ha, h⟩
    · rcases max_choice c (f b) with hc | hc
      · exact Or.inl (by rw [List.foldl_cons, h, hc])
      · exact Or.inr ⟨b, List.mem_cons_self b t, by rw [List.foldl_cons, h, hc]⟩
    · exact Or.inr ⟨a, List.mem_cons_of_mem b ha, by rw [List.foldl_cons, h]⟩

theorem killzonePenaltyOfDist_ge_one (d r : ℝ) (hr : 0 < r) :
    1 ≤ killzonePenaltyOfDist d r := by
  rw [killzonePenaltyOfDist]
  split_ifs with h1 h2 h3
  · norm_num
  · have hd : d - r < r * 0.5 := by nlinarith
    have hpos : (0:ℝ) < r * 0.5 := by nlinarith
    have harg : 0 ≤ 3 * (1 - (d - r) / (r * 0.5)) := by
      have : (d - r) / (r * 0.5) < 1 := (div_lt_one hpos).mpr hd
      nlinarith
    nlinarith [Real.one_le_exp harg]
  · norm_num
  · norm_num

theorem killzonePenaltyOfDist_eq_1000 (d r : ℝ) (h : d < r) :
    killzonePenaltyOfDist d r = 1000 := by
  rw [killzonePenaltyOfDist, if_pos h]

theorem killzonePenaltyOfDist_strict_band2 (r d₁ d₂ : ℝ) (hr : 0 < r)
    (h1 : r ≤ d₁) (h12 : d₁ < d₂) (h2 : d₂ < r * 1.5) :
    killzonePenaltyOfDist d₂ r < killzonePenaltyOfDist d₁ r := by
  have hpos : (0:ℝ) < r * 0.5 := by nlinarith
  rw [killzonePenaltyOfDist, if_neg (by linarith), if_pos h2,
    killzonePenaltyOfDist, if_neg (by linarith), if_pos (by linarith)]
  have hdiv : (d₁ - r) / (r * 0.5) < (d₂ - r) / (r * 0.5) :=
    div_lt_div_of_pos_right (by linarith) hpos
  have := Real.exp_lt_exp.mpr (show 3 * (1 - (d₂ - r) / (r * 0.5)) <
    3 * (1 - (d₁ - r) / (r * 0.5)) by linarith)
  linarith

theorem killzonePenaltyOfDist_const_band3 (r d₁ d₂ : ℝ) (hr : 0 < r)
    (h1a : r * 1.5 ≤ d₁) (h1b : d₁ < r * 2) (h2a : r * 1.5 ≤ d₂)
    (h2b : d₂ < r * 2) :
    killzonePenaltyOfDist d₁ r = killzonePenaltyOfDist d₂ r := by
  rw [killzonePenaltyOfDist, if_neg (by nlinarith), if_neg (by linarith),
    if_pos h1b, killzonePenaltyOfDist, if_neg (by nlinarith),
    if_neg (by linarith), if_pos h2b]

theorem killzonePenaltyOfDist_const_band4 (r d₁ d₂ : ℝ) (hr : 0 < r)
    (h1 : r * 2 ≤ d₁) (h2 : r * 2 ≤ d₂) :
    killzonePenaltyOfDist d₁ r = killzonePenaltyOfDist d₂ r := by
  rw [killzonePenaltyOfDist, if_neg (by nlinarith), if_neg (by nlinarith),
    if_neg (by linarith), killzonePenaltyOfDist, if_neg (by nlinarith),
    if_neg (by nlinarith), if_neg (by linarith)]

/-- Counterexample for C2: inside a kill zone (the band d < r) the penalty is
the constant 1000, so it is not strictly decreasing in d within that band:
the distances 0 and 1/2 both lie in the band of a radius-1 zone and receive
the same penalty. -/
theorem killzone_penalty_not_strictly_decreasing_in_band :
    (0:ℝ) < 1/2 ∧ (1/2:ℝ) < 1 ∧
    killzonePenaltyOfDist 0 1 = killzonePenaltyOfDist (1/2) 1 ∧
    killzonePenaltyOfDist 0 1 = 1000 := by
  refine ⟨by norm_num, by norm_num, ?_, ?_⟩
  · rw [killzonePenaltyOfDist_eq_1000 0 1 (by norm_num),
      killzonePenaltyOfDist_eq_1000 (1/2) 1 (by norm_num)]
  · exact killzonePenaltyOfDist_eq_1000 0 1 (by norm_num)

/-- C2 (amended): for a non-empty kill-zone list with positive radii the
penalty of _compute_killzone_penalty is the maximum over zones of the
piecewise per-zone penalty (upper bound and attained); the per-zone penalty
is at least 1 for every distance, equals 1000 for d < r, is strictly
decreasing in d within the exponential band r ≤ d < 1.5r, and is constant
(rather than strictly decreasing) within each of the other bands. -/
theorem computeKillzonePenalty_spec (dist : ℝ → ℝ → ℝ → ℝ → ℝ)
    (lat lon : ℝ) (kzs : List KillZone) (hne : kzs ≠ [])
    (hr : ∀ kz ∈ kzs, 0 < kz.radiusKm) :
    (∀ kz ∈ kzs,
      killzonePenaltyOfDist (dist lat lon kz.centerLat kz.centerLon)
        kz.radiusKm ≤ computeKillzonePenalty dist lat lon kzs) ∧
    (∃ kz ∈ kzs, computeKillzonePenalty dist lat lon kzs =
      killzonePenaltyOfDist (dist lat lon kz.centerLat kz.centerLon)
        kz.radiusKm) ∧
    (∀ d r : ℝ, 0 < r → 1 ≤ killzonePenaltyOfDist d r) ∧
    (∀ d r : ℝ, d < r → killzonePenaltyOfDist d r = 1000) ∧
    (∀ r d₁ d₂ : ℝ, 0 < r → r ≤ d₁ → d₁ < d₂ → d₂ < r * 1.5 →
      killzonePenaltyOfDist d₂ r < killzonePenaltyOfDist d₁ r) ∧
    (∀ r d₁ d₂ : ℝ, 0 < r → r * 1.5 ≤ d₁ → d₁ < r * 2 → r * 1.5 ≤ d₂ →
      d₂ < r * 2 → killzonePenaltyOfDist d₁ r = killzonePenaltyOfDist d₂ r) ∧
    (∀ r d₁ d₂ : ℝ, 0 < r → r * 2 ≤ d₁ → r * 2 ≤ d₂ →
      killzonePenaltyOfDist d₁ r = killzonePenaltyOfDist d₂ r) := by
  have hempty : kzs.isEmpty = false := by
    cases kzs with
    | nil => exact absurd rfl hne
    | cons k t => rfl
  set f : KillZone → ℝ := fun kz =>
    killzonePenaltyOfDist (dist lat lon kz.centerLat kz.centerLon)
      kz.radiusKm with hf
  have hcomp : computeKillzonePenalty dist lat lon kzs =
      kzs.foldl (fun m kz => max m (f kz)) 1 := by
    rw [computeKillzonePenalty, hempty]
    simp
  refine ⟨?_, ?_, fun d r h => killzonePenaltyOfDist_ge_one d r h,
    fun d r h => killzonePenaltyOfDist_eq_1000 d r h,
    fun r d₁ d₂ h h1 h2 h3 => killzonePenaltyOfDist_strict_band2 r d₁ d₂ h h1 h2 h3,
    fun r d₁ d₂ h h1 h2 h3 h4 => killzonePenaltyOfDist_const_band3 r d₁ d₂ h h1 h2 h3 h4,
    fun r d₁ d₂ h h1 h2 => killzonePenaltyOfDist_const_band4 r d₁ d₂ h h1 h2⟩
  · intro kz hkz
    rw [hcomp]
    exact foldl_max_le f kzs 1 kz hkz
  · rcases foldl_max_attained f kzs 1 with h | ⟨kz, hkz, h⟩
    · cases kzs with
      | nil => exact absurd rfl hne
      | cons k t =>
        refine ⟨k, List.mem_cons_self k t, ?_⟩
        have hub : f k ≤ computeKillzonePenalty dist lat lon (k :: t) := by
          rw [hcomp]
          exact foldl_max_le f (k :: t) 1 k (List.mem_cons_self k t)
        have hlb : 1 ≤ f k :=
          killzonePenaltyOfDist_ge_one _ _ (hr k (List.mem_cons_self k t))
        have : computeKillzonePenalty dist lat lon (k :: t) = 1 := by
          rw [hcomp, h]
        rw [this]
        exact le_antisymm hlb (this ▸ hub)
    · exact ⟨kz, hkz, by rw [hcomp, h]⟩

/-- Witness for C2 at a single radius-2 zone with constant distance 5 and at
concrete band points. -/
theorem computeKillzonePenalty_spec_witness :
    (killzonePenaltyOfDist 5 2 ≤
      computeKillzonePenalty (fun _ _ _ _ => 5) 0 0 [⟨0, 0, 2⟩]) ∧
    (1 ≤ killzonePenaltyOfDist 7 2) ∧
    killzonePenaltyOfDist 1 2 = 1000 ∧
    killzonePenaltyOfDist (5/2) 2 < killzonePenaltyOfDist 2 2 ∧
    killzonePenaltyOfDist (7/2) 2 = killzonePenaltyOfDist (13/4) 2 ∧
    killzonePenaltyOfDist 4 2 = killzonePenaltyOfDist 5 2 := by
  have h := computeKillzonePenalty_spec (fun _ _ _ _ => 5) 0 0 [⟨0, 0, 2⟩]
    (by simp) (by
      intro kz hkz
      rw [List.mem_singleton] at hkz
      subst hkz
      norm_num)
  exact ⟨h.1 ⟨0, 0, 2⟩ (List.mem_singleton.mpr rfl),
    h.2.2.1 7 2 (by norm_num),
    h.2.2.2.1 1 2 (by norm_num),
    h.2.2.2.2.1 2 2 (5/2) (by norm_num) (by norm_num) (by norm_num) (by norm_num),
    h.2.2.2.2.2.1 2 (7/2) (13/4) (by norm_num) (by norm_num) (by norm_num)
      (by norm_num) (by norm_num),
    h.2.2.2.2.2.2 2 4 5 (by norm_num) (by norm_num) (by norm_num)⟩

/-! ### Route results: method tags and fallbacks (C3, C4) -/

theorem buildRouteResult_method (g : Graph) (p : List Nat)
    (s : List Scenario) (cv : ℚ) (m : String) :
    (buildRouteResult g p s cv m).method = m := rfl

theorem emptyResult_method (m : String) : (emptyResult m).method = m := rfl

theorem shortestTime_method (g : Graph) (o d : Nat) (s : List Scenario) :
    (shortestTime g o d s).method = "shortest_time" := by
  unfold shortestTime
  cases nxShortestPath g weightTravelTime o d <;> rfl

/-- C3: whenever the MILP solve raises (no solver outcome) or the selected
edges fail to reconstruct a contiguous origin-destination node path,
optimize returns exactly the shortest_time result for the same graph, and
the method field of the returned result is "shortest_time", so the caller
can observe the degradation. -/
theorem optimize_fallback_eq_shortestTime (g : Graph) (o d : Nat) (cv : ℚ)
    (scn : List Scenario) (outcome : Option (List (Nat × Nat)))
    (h : outcome = none ∨
      ∃ sel, outcome = some sel ∧ edgesToPath sel o d = []) :
    optimize g o d cv scn outcome = shortestTime g o d scn ∧
    (optimize g o d cv scn outcome).method = "shortest_time" := by
  have heq : optimize g o d cv scn outcome = shortestTime g o d scn := by
    rcases h with rfl | ⟨sel, rfl, hsel⟩
    · rfl
    · simp only [optimize, hsel]
      rfl
  exact ⟨heq, by rw [heq]; exact shortestTime_method g o d scn⟩

/-- Witness for C3: a raised solve (no outcome) on the one-edge sample
graph. -/
theorem optimize_fallback_eq_shortestTime_witness :
    optimize sampleGraphOneEdge 0 1 7 [sampleScenario] none =
      shortestTime sampleGraphOneEdge 0 1 [sampleScenario] ∧
    (optimize sampleGraphOneEdge 0 1 7 [sampleScenario] none).method =
      "shortest_time" :=
  optimize_fallback_eq_shortestTime sampleGraphOneEdge 0 1 7
    [sampleScenario] none (Or.inl rfl)

theorem buildRouteResult_waypoints (g : Graph) (p : List Nat)
    (s : List Scenario) (cv : ℚ) (m : String) :
    (buildRouteResult g p s cv m).waypoints =
      buildWaypoints g p (totalTravelTime g p) := rfl

/-- C4: the waypoint loop of _build_route_result runs only after the
travel-time accumulation loop has finished, so every waypoint stores the
final accumulated total as its eta_hours.  On the path 0-1-2 of the sample
line graph (one-hour edges) all three waypoints carry eta_hours = 2,
although the cumulative travel time from the origin up to node 1 is 1: the
waypoint ETAs are not cumulative and are the same value for all waypoints. -/
theorem waypoint_eta_equals_final_total :
    ((buildRouteResult sampleGraphLine3 [0, 1, 2] [sampleScenario] 7
        "cvar").waypoints.map (fun w => w.eta_hours)) = [2, 2, 2] ∧
    ((buildRouteResult sampleGraphLine3 [0, 1, 2] [sampleScenario] 7
        "cvar").waypoints.map (fun w => w.name)) =
      ["Origin", "Waypoint 1", "Destination"] ∧
    totalTravelTime sampleGraphLine3 [0, 1] = 1 ∧
    totalTravelTime sampleGraphLine3 [0, 1, 2] = 2 := by
  have h1 : sampleGraphLine3.hasEdge 0 1 = true := by decide
  have h2 : sampleGraphLine3.hasEdge 1 2 = true := by decide
  have h3 : sampleGraphLine3.edgeData 0 1 = sampleEdgeData := by decide
  have h4 : sampleGraphLine3.edgeData 1 2 = sampleEdgeData := by decide
  have htot2 : totalTravelTime sampleGraphLine3 [0, 1, 2] = 2 := by
    simp [totalTravelTime, adjPairs, h1, h2, h3, h4, sampleEdgeData]
    norm_num
  have htot1 : totalTravelTime sampleGraphLine3 [0, 1] = 1 := by
    simp [totalTravelTime, adjPairs, h1, h3, sampleEdgeData]
  refine ⟨?_, ?_, htot1, htot2⟩ <;>
    rw [buildRouteResult_waypoints, htot2] <;> decide

/-! ### Soundness of the shortest-path search (towards C7) -/

theorem omap_isSome {α β : Type} (f : α → β) (o : Option α) :
    (o.map f).isSome = o.isSome := by
  cases o <;> rfl

theorem succList_hasEdge {g : Graph} {u v : Nat} (h : v ∈ succList g u) :
    g.hasEdge u v = true := by
  rcases List.mem_map.mp h with ⟨e, he, hev⟩
  rcases List.mem_filter.mp he with ⟨hmem, hpred⟩
  have hu : e.1.1 = u := by simpa using hpred
  have hp : (fun e => e.1.1 == u && e.1.2 == v) e = true := by
    simp [hu, hev]
  rw [Graph.hasEdge, Graph.findEdge, omap_isSome]
  exact List.find?_isSome.mpr ⟨e, hmem, hp⟩

theorem simplePathsAux_sound (g : Graph) (d : Nat) :
    ∀ (fuel current : Nat) (visited : List Nat) (p : List Nat),
      p ∈ simplePathsAux g d fuel current visited →
      p.head? = some current ∧ p.getLast? = some d ∧
      p.Chain' (fun u v => g.hasEdge u v = true) := by
  intro fuel
  induction fuel with
  | zero =>
    intro current visited p hp
    by_cases h : current = d
    · rw [simplePathsAux, if_pos h] at hp
      have hp2 : p = [current] := List.mem_singleton.mp hp
      subst hp2; subst h
      exact ⟨rfl, rfl, List.chain'_singleton _⟩
    · rw [simplePathsAux, if_neg h] at hp
      exact absurd hp (List.not_mem_nil p)
  | succ fuel2 ih =>
    intro current visited p hp
    by_cases h : current = d
    · rw [simplePathsAux, if_pos h] at hp
      have hp2 : p = [current] := List.mem_singleton.mp hp
      subst hp2; subst h
      exact ⟨rfl, rfl, List.chain'_singleton _⟩
    · rw [simplePathsAux, if_neg h] at hp
      rcases List.mem_flatten.mp hp with ⟨l, hl, hpl⟩
      rcases List.mem_map.mp hl with ⟨v, hv, rfl⟩
      rcases List.mem_map.mp hpl with ⟨q, hq, rfl⟩
      have hvsucc : v ∈ succList g current := (List.mem_filter.mp hv).1
      obtain ⟨hqh, hql, hqc⟩ := ih v (v :: visited) q hq
      refine ⟨rfl, ?_, ?_⟩
      · rw [List.getLast?_cons, hql]
        rfl
      · rw [List.chain'_cons']
        refine ⟨?_, hqc⟩
        intro y hy
        rw [hqh] at hy
        obtain rfl := Option.mem_some_iff.mp hy
        exact succList_hasEdge hvsucc

theorem foldl_min_mem (g : Graph) (w : EdgeData → ℚ) (ps : List (List Nat))
    (p : List Nat) :
    ps.foldl (fun best q =>
      if pathWeight g w q < pathWeight g w best then q else best) p ∈
      p :: ps := by
  induction ps generalizing p with
  | nil => exact List.mem_singleton.mpr rfl
  | cons q t ih =>
    rw [List.foldl_cons]
    by_cases hc : pathWeight g w q < pathWeight g w p
    · rw [if_pos hc]
      rcases List.mem_cons.mp (ih q) with h | h
      · rw [h]
        exact List.mem_cons_of_mem _ (List.mem_cons_self _ _)
      · exact List.mem_cons_of_mem _ (List.mem_cons_of_mem _ h)
    · rw [if_neg hc]
      rcases List.mem_cons.mp (ih p) with h | h
      · rw [h]
        exact List.mem_cons_self _ _
      · exact List.mem_cons_of_mem _ (List.mem_cons_of_mem _ h)

theorem minWeightPath_mem (g : Graph) (w : EdgeData → ℚ)
    (l : List (List Nat)) (p : List Nat)
    (h : minWeightPath g w l = some p) : p ∈ l := by
  cases l with
  | nil => exact Option.noConfusion h
  | cons q t =>
    rw [minWeightPath] at h
    injection h with h
    rw [← h]
    exact foldl_min_mem g w t q

theorem nxShortestPath_sound (g : Graph) (w : EdgeData → ℚ) (o d : Nat)
    (p : List Nat) (h : nxShortestPath g w o d = some p) :
    IsWalkFromTo g o d p :=
  simplePathsAux_sound g d (g.nodes.length + 1) o [o] p
    (minWeightPath_mem g w _ p h)

theorem nxShortestPath_eq_none (g : Graph) (w : EdgeData → ℚ) (o d : Nat)
    (h : ¬ ExistsPath g o d) : nxShortestPath g w o d = none := by
  cases hw : nxShortestPath g w o d with
  | none => rfl
  | some p => exact absurd ⟨p, nxShortestPath_sound g w o d p hw⟩ h

/-! ### Edge-attribute mutation lemmas (towards C6, C7) -/

theorem findEdge_isSome_map (l : List ((Nat × Nat) × EdgeData))
    (f : (Nat × Nat) × EdgeData → (Nat × Nat) × EdgeData)
    (hf : ∀ e, (f e).1 = e.1) (u v : Nat) :
    ((l.map f).find? (fun e => e.1.1 == u && e.1.2 == v)).isSome =
      (l.find? (fun e => e.1.1 == u && e.1.2 == v)).isSome := by
  induction l with
  | nil => rfl
  | cons e t ih =>
    rw [List.map_cons]
    by_cases h : (e.1.1 == u && e.1.2 == v) = true
    · rw [List.find?_cons_of_pos t h,
        List.find?_cons_of_pos (t.map f) (by rw [hf]; exact h)]
      rfl
    · rw [List.find?_cons_of_neg t h,
        List.find?_cons_of_neg (t.map f) (by rw [hf]; exact h), ih]

theorem hasEdge_mapEdges (g : Graph)
    (f : (Nat × Nat) × EdgeData → (Nat × Nat) × EdgeData)
    (hf : ∀ e, (f e).1 = e.1) (u v : Nat) :
    (Graph.mk g.nodes (g.edges.map f)).hasEdge u v = g.hasEdge u v := by
  rw [Graph.hasEdge, Graph.hasEdge, Graph.findEdge, Graph.findEdge,
    omap_isSome, omap_isSome]
  exact findEdge_isSome_map g.edges f hf u v

theorem hasEdge_setRiskWeights (g : Graph) (cv : ℚ) (u v : Nat) :
    (setRiskWeights g cv).hasEdge u v = g.hasEdge u v :=
  hasEdge_mapEdges g
    (fun e => (e.1, { e.2 with
      risk_weight := some ((e.2.detection_base.getD (3/10)) *
        cv / 10 * (e.2.killzone_penalty.getD 1)) }))
    (fun e => rfl) u v

theorem existsPath_setRiskWeights (g : Graph) (cv : ℚ) (o d : Nat)
    (h : ¬ ExistsPath g o d) : ¬ ExistsPath (setRiskWeights g cv) o d := by
  rintro ⟨p, h1, h2, h3⟩
  exact h ⟨p, h1, h2, h3.imp (fun a b hab => by
    rwa [hasEdge_setRiskWeights] at hab)⟩

theorem meanRisk_snd (g : Graph) (o d : Nat) (cv : ℚ)
    (scn : List Scenario) :
    (meanRisk g o d cv scn).2 = setRiskWeights g cv := by
  simp only [meanRisk]
  cases nxShortestPath (setRiskWeights g cv) weightRiskWeight o d <;> rfl

/-- C7: when destination d is not reachable from origin o by a directed
path, shortest_distance, shortest_time and mean_risk each return the empty
RouteResult whose node path and coordinate path are empty, whose numeric
fields are all zero, and whose method tag is the name of the operation. -/
theorem disconnected_gives_empty_result (g : Graph) (o d : Nat) (cv : ℚ)
    (scn : List Scenario) (h : ¬ ExistsPath g o d) :
    shortestDistance g o d scn = emptyResult "shortest_distance" ∧
    shortestTime g o d scn = emptyResult "shortest_time" ∧
    (meanRisk g o d cv scn).1 = emptyResult "mean_risk" ∧
    (∀ m : String, (emptyResult m).path = [] ∧
      (emptyResult m).node_path = [] ∧ (emptyResult m).time_minutes = 0 ∧
      (emptyResult m).distance_km = 0 ∧ (emptyResult m).mean_risk = 0 ∧
      (emptyResult m).cvar_95 = 0 ∧ (emptyResult m).cvar_99 = 0 ∧
      (emptyResult m).survival_probability = 0 ∧
      (emptyResult m).method = m) := by
  refine ⟨?_, ?_, ?_, fun m => ⟨rfl, rfl, rfl, rfl, rfl, rfl, rfl, rfl, rfl⟩⟩
  · simp only [shortestDistance, nxShortestPath_eq_none g weightDistance o d h]
  · simp only [shortestTime, nxShortestPath_eq_none g weightTravelTime o d h]
  · simp only [meanRisk, nxShortestPath_eq_none (setRiskWeights g cv)
      weightRiskWeight o d (existsPath_setRiskWeights g cv o d h)]

/-- Witness for C7 on the two-node edgeless sample graph, where node 1 is
unreachable from node 0. -/
theorem disconnected_gives_empty_result_witness :
    shortestDistance sampleGraphNoPath 0 1 [] =
      emptyResult "shortest_distance" ∧
    shortestTime sampleGraphNoPath 0 1 [] = emptyResult "shortest_time" ∧
    (meanRisk sampleGraphNoPath 0 1 7 []).1 = emptyResult "mean_risk" := by
  have hnp : ¬ ExistsPath sampleGraphNoPath 0 1 := by
    rintro ⟨p, h1, h2, h3⟩
    cases p with
    | nil => exact Option.noConfusion h1
    | cons a q =>
      cases q with
      | nil =>
        have ha : a = 0 := by simpa using h1
        have hb : a = 1 := by simpa using h2
        omega
      | cons b t =>
        have hedge : sampleGraphNoPath.hasEdge a b = true :=
          (List.chain'_cons.mp h3).1
        simp [sampleGraphNoPath, Graph.hasEdge, Graph.findEdge] at hedge
  have h := disconnected_gives_empty_result sampleGraphNoPath 0 1 7 [] hnp
  exact ⟨h.1, h.2.1, h.2.2.1⟩

/-! ### Graph mutation by the solvers (C6) -/

/-- C6 counterexample: one call to mean_risk on the one-edge sample graph
changes the edge attribute maps of the shared graph: risk_weight is written
into every edge and never reverted, so the post-state differs from the
pre-state. -/
theorem meanRisk_mutates_graph :
    (meanRisk sampleGraphOneEdge 0 1 7 []).2.edges ≠
      sampleGraphOneEdge.edges := by
  rw [meanRisk_snd]
  decide

theorem edgeData_set_temp_none {ed : EdgeData}
    (h : ed.temp_penalty = none) : { ed with temp_penalty := none } = ed := by
  cases ed
  simp_all

theorem edgeData_upd_cancel (ed : EdgeData) (h : ed.temp_penalty = none) :
    ({ { ed with temp_penalty := some 100 } with
      temp_penalty := none } : EdgeData) = ed := by
  cases ed
  simp_all

theorem remove_apply_restore (g : Graph) (pes : List (Nat × Nat))
    (hclean : ∀ e ∈ g.edges, e.2.temp_penalty = none) :
    removeTempPenalties (applyTempPenalties g pes) pes = g := by
  cases g with
  | mk ns es =>
    have hcl : ∀ e ∈ es, e.2.temp_penalty = none := hclean
    simp only [applyTempPenalties, removeTempPenalties, List.map_map,
      Graph.mk.injEq]
    refine ⟨trivial, ?_⟩
    refine (List.map_congr_left ?_).trans (List.map_id es)
    intro e he
    simp only [Function.comp_apply, id_eq]
    by_cases hc : e.1 ∈ pes
    · rw [if_pos hc, if_pos ⟨hc, rfl⟩]
      show ((e.1, { { e.2 with temp_penalty := some 100 } with
        temp_penalty := none }) : (Nat × Nat) × EdgeData) = e
      rw [edgeData_upd_cancel e.2 (hcl e he)]
    · rw [if_neg hc, if_neg (fun hx => hc hx.1)]

theorem diverseRouteStep_success_restores (g : Graph)
    (pes : List (Nat × Nat)) (o d : Nat)
    (hclean : ∀ e ∈ g.edges, e.2.temp_penalty = none)
    (p : List Nat) (g2 : Graph)
    (h : diverseRouteStep g pes o d = (some p, g2)) : g2 = g := by
  simp only [diverseRouteStep] at h
  cases hs : nxShortestPath (applyTempPenalties g pes) weightDiverse o d with
  | none => rw [hs] at h; exact Option.noConfusion (congrArg Prod.fst h)
  | some q =>
    rw [hs] at h
    injection h with h1 h2
    rw [← h2]
    exact remove_apply_restore g pes hclean

theorem diverseRouteStep_failure_leaks (g : Graph)
    (pes : List (Nat × Nat)) (o d : Nat) (g2 : Graph)
    (h : diverseRouteStep g pes o d = (none, g2)) :
    ∀ e ∈ g2.edges, e.1 ∈ pes → e.2.temp_penalty = some 100 := by
  simp only [diverseRouteStep] at h
  cases hs : nxShortestPath (applyTempPenalties g pes) weightDiverse o d with
  | some q => rw [hs] at h; exact Option.noConfusion (congrArg Prod.fst h)
  | none =>
    rw [hs] at h
    injection h with h1 h2
    subst h2
    intro e he hmem
    simp only [applyTempPenalties] at he
    rcases List.mem_map.mp he with ⟨e0, he0, heq⟩
    by_cases hc : e0.1 ∈ pes
    · rw [if_pos hc] at heq
      rw [← heq]
    · rw [if_neg hc] at heq
      rw [← heq] at hmem
      exact absurd hmem hc

/-- C6 (amended): shortest_distance and shortest_time only read the graph,
but mean_risk overwrites the risk_weight attribute of every edge of the
shared graph in place (all other attributes preserved) and never reverts it;
the Stackelberg diversification applies temp_penalty = 100 to the used edges
and removes it when the penalized search succeeds (restoring the graph
exactly when no temp_penalty was present before), yet leaves the penalties
on the graph when the search raises, because the except handler breaks out
before the removal loop. -/
theorem solver_graph_mutation_spec (g : Graph) (o d : Nat) (cv : ℚ)
    (scn : List Scenario) (pes : List (Nat × Nat))
    (hclean : ∀ e ∈ g.edges, e.2.temp_penalty = none) :
    (meanRisk g o d cv scn).2 = setRiskWeights g cv ∧
    ((setRiskWeights g cv).edges.map
        (fun e => (e.1, { e.2 with risk_weight := none })) =
      g.edges.map (fun e => (e.1, { e.2 with risk_weight := none }))) ∧
    (∀ e ∈ (setRiskWeights g cv).edges, e.2.risk_weight.isSome = true) ∧
    (∀ p g2, diverseRouteStep g pes o d = (some p, g2) → g2 = g) ∧
    (∀ g2, diverseRouteStep g pes o d = (none, g2) →
      ∀ e ∈ g2.edges, e.1 ∈ pes → e.2.temp_penalty = some 100) := by
  refine ⟨meanRisk_snd g o d cv scn, ?_, ?_,
    fun p g2 h => diverseRouteStep_success_restores g pes o d hclean p g2 h,
    fun g2 h => diverseRouteStep_failure_leaks g pes o d g2 h⟩
  · simp only [setRiskWeights, List.map_map]
    rfl
  · intro e he
    simp only [setRiskWeights] at he
    rcases List.mem_map.mp he with ⟨e0, he0, heq⟩
    rw [← heq]
    rfl

/-- Witness for C6 (amended) on the one-edge sample graph with the single
penalty edge (0,1). -/
theorem solver_graph_mutation_spec_witness :
    (meanRisk sampleGraphOneEdge 0 1 7 []).2 =
      setRiskWeights sampleGraphOneEdge 7 ∧
    (∀ e ∈ (setRiskWeights sampleGraphOneEdge 7).edges,
      e.2.risk_weight.isSome = true) := by
  have h := solver_graph_mutation_spec sampleGraphOneEdge 0 1 7 [] [(0, 1)]
    (by decide)
  exact ⟨h.1, h.2.2.1⟩

/-! ### Scenario sampling determinism (C5) -/

theorem generateScenarios_length (n s : Nat) :
    (generateScenarios n s).1.length = n := by
  induction n generalizing s with
  | zero => rfl
  | succ k ih => simp [generateScenarios, ih]

theorem rngUniform_bounds (lo hi : ℚ) (s : Nat) (h : lo ≤ hi) :
    lo ≤ (rngUniform lo hi s).1 ∧ (rngUniform lo hi s).1 ≤ hi := by
  have hm : ((rngNext s % 1001 : Nat) : ℚ) ≤ 1000 := by
    have hlt : rngNext s % 1001 < 1001 := Nat.mod_lt _ (by norm_num)
    exact_mod_cast Nat.lt_succ_iff.mp hlt
  have hm0 : (0:ℚ) ≤ ((rngNext s % 1001 : Nat) : ℚ) := Nat.cast_nonneg _
  have key0 : 0 ≤ (hi - lo) * ((rngNext s % 1001 : Nat) : ℚ) / 1000 :=
    div_nonneg (mul_nonneg (sub_nonneg.mpr h) hm0) (by norm_num)
  have key1 : (hi - lo) * ((rngNext s % 1001 : Nat) : ℚ) / 1000 ≤ hi - lo := by
    rw [div_le_iff (by norm_num : (0:ℚ) < 1000)]
    calc (hi - lo) * ((rngNext s % 1001 : Nat) : ℚ)
        ≤ (hi - lo) * 1000 :=
          mul_le_mul_of_nonneg_left hm (sub_nonneg.mpr h)
      _ = (hi - lo) * 1000 := rfl
  constructor
  · simp only [rngUniform]
    linarith
  · simp only [rngUniform]
    linarith

theorem rngChoice_mem (options : List ℚ) (s : Nat) (h : options ≠ []) :
    (rngChoice options s).1 ∈ options := by
  simp only [rngChoice]
  have hlen : 0 < options.length := List.length_pos.mpr h
  have hlt : rngNext s % options.length < options.length := Nat.mod_lt _ hlen
  rw [List.getD_eq_getElem options 0 hlt]
  exact List.getElem_mem hlt

set_option maxRecDepth 4000 in
theorem generateScenario_ranges (s : Nat) :
    7/10 ≤ (generateScenario s).1.visibility_mult ∧
    (generateScenario s).1.visibility_mult ≤ 13/10 ∧
    4/5 ≤ (generateScenario s).1.detection_mult ∧
    (generateScenario s).1.detection_mult ≤ 6/5 ∧
    (generateScenario s).1.patrol_presence ∈
      ([4/5, 1, 6/5, 3/2] : List ℚ) := by
  have h1 := rngUniform_bounds (7/10) (13/10) s (by norm_num)
  have h2 := rngUniform_bounds (4/5) (6/5)
    (rngUniform (7/10) (13/10) s).2 (by norm_num)
  have h3 := rngChoice_mem [4/5, 1, 6/5, 3/2]
    (rngUniform (4/5) (6/5) (rngUniform (7/10) (13/10) s).2).2
    (List.cons_ne_nil _ _)
  simp only [generateScenario]
  exact ⟨h1.1, h1.2, h2.1, h2.2, h3⟩

theorem generateScenarios_ranges (n s : Nat) :
    ∀ sc ∈ (generateScenarios n s).1,
      7/10 ≤ sc.visibility_mult ∧ sc.visibility_mult ≤ 13/10 ∧
      4/5 ≤ sc.detection_mult ∧ sc.detection_mult ≤ 6/5 ∧
      sc.patrol_presence ∈ ([4/5, 1, 6/5, 3/2] : List ℚ) := by
  induction n generalizing s with
  | zero =>
    intro sc hsc
    exact absurd hsc (List.not_mem_nil sc)
  | succ k ih =>
    intro sc hsc
    rcases List.mem_cons.mp hsc with rfl | h2
    · exact generateScenario_ranges s
    · exact ih (generateScenario s).2 sc h2

/-- C5 counterexample: two successive runs of _generate_scenarios with
identical caller-supplied arguments draw different scenario lists, because
the hidden global generator state has advanced in between and the router API
exposes no seed parameter that could restore it. -/
theorem generateScenarios_successive_runs_differ :
    (generateScenarios 1 42).1 ≠
      (generateScenarios 1 (generateScenarios 1 42).2).1 := by
  intro h
  simp only [generateScenarios, generateScenario, rngUniform, rngChoice,
    rngNext] at h
  norm_num [Scenario.mk.injEq] at h

/-- C5 (amended): _generate_scenarios is a deterministic function of the
hidden global generator state and the scenario count alone: equal states and
counts give identical scenario lists and identical post-states; the list has
exactly num_scenarios entries, and every drawn scenario lies in the
documented ranges.  Reproducibility therefore holds only when the caller
externally reseeds the global generator; no seed parameter exists in the
router API. -/
theorem generateScenarios_deterministic_in_state (n1 n2 s1 s2 : Nat)
    (hn : n1 = n2) (hs : s1 = s2) :
    generateScenarios n1 s1 = generateScenarios n2 s2 ∧
    (generateScenarios n1 s1).1.length = n1 ∧
    (∀ sc ∈ (generateScenarios n1 s1).1,
      7/10 ≤ sc.visibility_mult ∧ sc.visibility_mult ≤ 13/10 ∧
      4/5 ≤ sc.detection_mult ∧ sc.detection_mult ≤ 6/5 ∧
      sc.patrol_presence ∈ ([4/5, 1, 6/5, 3/2] : List ℚ)) := by
  subst hn; subst hs
  exact ⟨rfl, generateScenarios_length n1 s1, generateScenarios_ranges n1 s1⟩

/-- Witness for C5 (amended) at two scenarios from state 7. -/
theorem generateScenarios_deterministic_in_state_witness :
    generateScenarios 2 7 = generateScenarios 2 7 ∧
    (generateScenarios 2 7).1.length = 2 := by
  have h := generateScenarios_deterministic_in_state 2 2 7 7 rfl rfl
  exact ⟨h.1, h.2.1⟩

/-! ### Stackelberg zero-sum selection (C8) -/

theorem dotQ_zero_left_pair (y : List ℚ) : dotQ [0, 0] y = 0 := by
  match y with
  | [] => rfl
  | [a] => simp [dotQ]
  | a :: b :: t => simp [dotQ]

theorem dotQ_zero_right_pair (x : List ℚ) : dotQ x [0, 0] = 0 := by
  match x with
  | [] => rfl
  | [a] => simp [dotQ]
  | a :: b :: t => simp [dotQ]

/-- C8 counterexample: in the uniform (all-zero) 2-by-2 payoff matrix every
strategy pair is an equilibrium of the zero-sum game, in particular the pure
pair ([1,0],[1,0]); when the external support enumeration yields that pair
first, _solve_zero_sum_game returns [1,0], whose first component differs
from the uniform value 1/2 by 1/2, far more than 1e-6. -/
theorem solveZeroSum_uniform_matrix_counterexample :
    IsZeroSumEquilibrium [[0, 0], [0, 0]] [1, 0] [1, 0] ∧
    solveZeroSumGame [[0, 0], [0, 0]] [([1, 0], [1, 0])] = [1, 0] ∧
    uniformStrategy 2 = [1/2, 1/2] ∧
    |(1:ℚ) - 1/2| > 1/1000000 := by
  have hm : matVec [[(0:ℚ), 0], [0, 0]] [1, 0] = [0, 0] := by
    simp [matVec, dotQ_zero_left_pair]
  have hsum : ([1, 0] : List ℚ).sum = 1 := by
    norm_num [List.sum_cons, List.sum_nil]
  refine ⟨⟨⟨by decide, hsum⟩, ⟨by decide, hsum⟩, ?_, ?_⟩,
    by decide, ?_, ?_⟩
  · intro s2 _ _
    rw [payoffValue, payoffValue, hm, dotQ_zero_right_pair,
      dotQ_zero_right_pair]
  · intro t2 _ _
    rw [payoffValue, payoffValue, hm, dotQ_zero_right_pair]
    have hm2 : matVec [[(0:ℚ), 0], [0, 0]] t2 = [0, 0] := by
      simp [matVec, dotQ_zero_left_pair]
    rw [hm2, dotQ_zero_right_pair]
  · rw [uniformStrategy]
    norm_num [List.replicate]
  · have habs : |(1:ℚ) - 1/2| = 1/2 := by
      rw [show (1:ℚ) - 1/2 = 1/2 by norm_num]
      exact abs_of_pos (by norm_num)
    rw [habs]
    norm_num

/-- C8 (amended): _solve_zero_sum_game returns the degenerate [1.0] when the
payoff matrix has exactly one row, the uniform distribution over K routes
when the support enumeration yields no equilibria (and the uniform default
is a probability vector whenever K > 0), and otherwise the attacker
component of the first enumerated equilibrium, whatever it is: for a uniform
payoff matrix that component depends on the external enumeration order and
need not be the uniform distribution. -/
theorem solveZeroSumGame_spec (payoff : List (List ℚ))
    (equilibria : List (List ℚ × List ℚ)) :
    (payoff.length = 1 → solveZeroSumGame payoff equilibria = [1]) ∧
    (payoff.length ≠ 1 → equilibria = [] →
      solveZeroSumGame payoff equilibria = uniformStrategy payoff.length) ∧
    (∀ e es, payoff.length ≠ 1 → equilibria = e :: es →
      solveZeroSumGame payoff equilibria = e.1) ∧
    (0 < payoff.length → IsProbVec (uniformStrategy payoff.length)) := by
  refine ⟨?_, ?_, ?_, ?_⟩
  · intro h
    simp [solveZeroSumGame, h]
  · intro h he
    subst he
    simp [solveZeroSumGame, h]
  · intro e es h he
    subst he
    simp [solveZeroSumGame, h]
  · intro h
    have hk : ((payoff.length : ℚ)) ≠ 0 := by
      exact_mod_cast Nat.pos_iff_ne_zero.mp h
    constructor
    · intro v hv
      rw [uniformStrategy] at hv
      rw [List.eq_of_mem_replicate hv]
      positivity
    · rw [uniformStrategy, List.sum_replicate, nsmul_eq_mul]
      field_simp

/-- Witness for C8 (amended) at a one-row matrix and at the all-zero 2-by-2
matrix with an empty enumeration. -/
theorem solveZeroSumGame_spec_witness :
    solveZeroSumGame [[(5:ℚ)]] [] = [1] ∧
    solveZeroSumGame ([[0, 0], [0, 0]] : List (List ℚ)) [] =
      uniformStrategy 2 ∧
    IsProbVec (uniformStrategy 2) :=
  ⟨(solveZeroSumGame_spec [[(5:ℚ)]] []).1 rfl,
   (solveZeroSumGame_spec ([[0, 0], [0, 0]] : List (List ℚ)) []).2.1
     (by decide) rfl,
   (solveZeroSumGame_spec ([[0, 0], [0, 0]] : List (List ℚ)) []).2.2.2
     (by decide)⟩

/-! ### Pareto dominance filter (C9) -/

theorem dominates_irrefl (r : RouteResult) : dominates r r = false := by
  simp [dominates]

theorem isDominatedWithin_eq_any (l : List RouteResult) (i : Nat)
    (r : RouteResult) (hi : i < l.length) (hget : l[i] = r) :
    isDominatedWithin l i r = l.any (fun q => dominates q r) := by
  cases hb : l.any (fun q => dominates q r) with
  | true =>
    rcases List.any_eq_true.mp hb with ⟨x, hx, hdx⟩
    rcases List.mem_iff_getElem.mp hx with ⟨j, hj, hgj⟩
    have hji : j ≠ i := by
      rintro rfl
      have hxr : x = r := by rw [← hgj, hget]
      rw [hxr, dominates_irrefl] at hdx
      exact Bool.noConfusion hdx
    rw [isDominatedWithin]
    apply List.any_eq_true.mpr
    have hje : j < l.enum.length := by rw [List.enum_length]; exact hj
    refine ⟨(j, x), ?_, ?_⟩
    · have hje2 : l.enum[j] = (j, l[j]) := List.getElem_enum l j hje
      rw [← hgj, ← hje2]
      exact List.getElem_mem hje
    · simp [hji, hdx]
  | false =>
    rw [isDominatedWithin]
    apply List.any_eq_false.mpr
    intro q hq
    obtain ⟨j, x⟩ := q
    obtain ⟨hj0, hjlt, hxval⟩ := List.mem_enumFrom hq
    simp only [Bool.and_eq_true, decide_eq_true_eq, ne_eq]
    rintro ⟨hji, hqd⟩
    have hxl : x ∈ l := by
      rw [hxval]
      exact List.getElem_mem _
    exact absurd hqd (List.any_eq_false.mp hb x hxl)

theorem enumFrom_filter_snd (gpred : RouteResult → Bool)
    (l : List RouteResult) (k : Nat) :
    ((l.enumFrom k).filter (fun p => gpred p.2)).map (fun p => p.2) =
      l.filter gpred := by
  induction l generalizing k with
  | nil => rfl
  | cons a t ih =>
    by_cases h : gpred a = true
    · simp [List.enumFrom, List.filter_cons, h, ih]
    · simp [List.enumFrom, List.filter_cons, h, ih]

theorem filterDominated_eq (l : List RouteResult) :
    filterDominated l =
      l.filter (fun r => !(l.any (fun q => dominates q r))) := by
  rw [filterDominated]
  by_cases hlen : l.length ≤ 1
  · rw [if_pos hlen]
    match l, hlen with
    | [], _ => rfl
    | [r], _ => simp [List.filter_cons, dominates_irrefl]
    | a :: b :: t, hl => simp at hl
  · rw [if_neg hlen]
    have hcongr : ∀ p ∈ l.enum,
        (!(isDominatedWithin l p.1 p.2)) =
          (!(l.any (fun q => dominates q p.2))) := by
      intro p hp
      obtain ⟨i, r⟩ := p
      obtain ⟨hi0, hilt, hival⟩ := List.mem_enumFrom hp
      have hi2 : i < l.length := by omega
      rw [isDominatedWithin_eq_any l i r hi2 (by rw [hival]; simp)]
    rw [List.filter_congr hcongr]
    exact enumFrom_filter_snd
      (fun r => !(l.any (fun q => dominates q r))) l 0

/-- C9: the Pareto dominance filter returns a list with no dominating pair
unchanged, and applying the filter twice always equals applying it once. -/
theorem filterDominated_stable_idempotent (results : List RouteResult)
    (hnd : ∀ a ∈ results, ∀ b ∈ results, dominates a b = false) :
    filterDominated results = results ∧
    (∀ l : List RouteResult,
      filterDominated (filterDominated l) = filterDominated l) := by
  constructor
  · rw [filterDominated_eq]
    apply List.filter_eq_self.mpr
    intro r hr
    rw [Bool.not_eq_true']
    apply List.any_eq_false.mpr
    intro x hx
    rw [hnd x hx r hr]
    simp
  · intro l
    rw [filterDominated_eq l,
      filterDominated_eq (l.filter (fun r => !(l.any (fun q => dominates q r))))]
    apply List.filter_eq_self.mpr
    intro r hr
    have hr2 := List.mem_filter.mp hr
    have hfalse : l.any (fun q => dominates q r) = false := by
      simpa using hr2.2
    have hall := List.any_eq_false.mp hfalse
    rw [Bool.not_eq_true']
    apply List.any_eq_false.mpr
    intro x hx
    exact hall x (List.mem_of_mem_filter hx)

/-- Witness for C9 on two incomparable route results. -/
theorem filterDominated_stable_idempotent_witness :
    filterDominated [sampleRouteA, sampleRouteB] =
      [sampleRouteA, sampleRouteB] ∧
    (∀ l : List RouteResult,
      filterDominated (filterDominated l) = filterDominated l) :=
  filterDominated_stable_idempotent [sampleRouteA, sampleRouteB] (by decide)

end GhostSupply
